import Mathlib

/-!
Verification of the Candilib booking server specification against its code.

The repository under verification is a booking and administration backend for
driving-exam slots.  The development below embeds, shallowly, the data model
and the operations of its place-booking allocation and candidate-eligibility
engine: the calendar service, the eligibility evaluator, the slot repository,
the booking orchestrator with its archive ledger, and the pieces of the
controller layer that are present verbatim in the repository
(admin removal of a reservation, centre deactivation).

Dates are modelled as civil Gregorian dates with `Nat` fields and as day
numbers (days elapsed since the civil epoch 0000-03-01 of the proleptic
Gregorian calendar); instants are minutes.  All definitions are executable.
-/

/-! ## Calendar kernel -/

/-- A civil (proleptic Gregorian) calendar date.  The server manipulates dates
through luxon `DateTime` values in a fixed French timezone; business rules
only ever inspect the civil fields, which is what this structure keeps. -/
structure CalDate where
  year : Nat
  month : Nat
  day : Nat
deriving DecidableEq

/-- Gregorian leap-year test. -/
def isLeapYear (y : Nat) : Bool :=
  (y % 4 == 0 && y % 100 != 0) || y % 400 == 0

/-- Number of days of month `m` in year `y`. -/
def monthLength (y m : Nat) : Nat :=
  if m == 2 then (if isLeapYear y then 29 else 28)
  else if m == 4 || m == 6 || m == 9 || m == 11 then 30
  else 31

/-- Day number of a civil date: days elapsed since 0000-03-01 of the
proleptic Gregorian calendar (the standard era-based civil-to-days
computation, specialised to non-negative years). -/
def toDayNumber (d : CalDate) : Nat :=
  let y := if d.month ≤ 2 then d.year - 1 else d.year
  let mp := (d.month + 9) % 12
  let doy := (153 * mp + 2) / 5 + (d.day - 1)
  365 * y + y / 4 - y / 100 + y / 400 + doy

/-- Day of week of a civil date encoded as a number in `0..6` with
`0` = Wednesday (the anchor 2000-03-01, day number 730485 ≡ 0 mod 7,
was a Wednesday).  Hence Saturday is `3` and Sunday is `4`. -/
def dayOfWeekNum (d : CalDate) : Nat :=
  toDayNumber d % 7

/-- Whether a civil date falls on a Saturday. -/
def isSaturdayDate (d : CalDate) : Bool :=
  dayOfWeekNum d == 3

/-- Whether a civil date falls on a Sunday. -/
def isSundayDate (d : CalDate) : Bool :=
  dayOfWeekNum d == 4

/-- Whether a civil date falls on a weekend (Saturday or Sunday). -/
def isWeekendDate (d : CalDate) : Bool :=
  isSaturdayDate d || isSundayDate d

/-- Month and day of Easter Sunday of year `y` (Gregorian computus,
anonymous algorithm).  All intermediate quantities stay non-negative, so
`Nat` subtraction is exact here. -/
def easterMonthDay (y : Nat) : Nat × Nat :=
  let a := y % 19
  let b := y / 100
  let c := y % 100
  let d := b / 4
  let e := b % 4
  let f := (b + 8) / 25
  let g := (b - f + 1) / 3
  let h := (19 * a + b + 15 - d - g) % 30
  let i := c / 4
  let k := c % 4
  let l := (32 + 2 * e + 2 * i - h - k) % 7
  let m := (a + 11 * h + 22 * l) / 451
  let n := (h + l + 114) - 7 * m
  (n / 31, n % 31 + 1)

/-- Add `n` days to a month/day pair inside year `y` (used only for the
Easter-based moving holidays, which stay inside March–June, so no year
rollover can occur). -/
def addDaysInYear (y : Nat) : Nat → Nat × Nat → Nat × Nat
  | 0, md => md
  | n + 1, (m, d) =>
    if d < monthLength y m then addDaysInYear y n (m, d + 1)
    else addDaysInYear y n (m + 1, 1)

/-- Month and day of Easter Monday of year `y`. -/
def lundiDePaques (y : Nat) : Nat × Nat :=
  addDaysInYear y 1 (easterMonthDay y)

/-- Month and day of Ascension of year `y` (Easter + 39 days). -/
def ascension (y : Nat) : Nat × Nat :=
  addDaysInYear y 39 (easterMonthDay y)

/-- Month and day of Whit Monday of year `y` (Easter + 50 days). -/
def lundiDePentecote (y : Nat) : Nat × Nat :=
  addDaysInYear y 50 (easterMonthDay y)

/-- Modelled from the spec: the per-year French holiday table used by the
clock/calendar service (`date-util.js`, absent from the sources; only its
test `date-util.spec.js` is present).  Fixed holidays plus the Easter-based
moving holidays (Easter Monday, Ascension, Whit Monday), computed per-year. -/
def joursFeries (y : Nat) : List (Nat × Nat) :=
  [(1, 1), (5, 1), (5, 8), (7, 14), (8, 15), (11, 1), (11, 11), (12, 25),
   lundiDePaques y, ascension y, lundiDePentecote y]

/-- Modelled from the spec: `isHolidays(date)` of the calendar service
(`date-util.js`, absent from the sources): whether the date appears in the
holiday table of its year. -/
def isHolidays (d : CalDate) : Bool :=
  (joursFeries d.year).contains (d.month, d.day)

/-- Modelled from the spec: the business-day classification
`isWorkingDay(date)` of the calendar service (`date-util.js`, absent from
the sources).  The spec states that the classification is false on weekends
and holiday-table dates; the repository's own test `date-util.spec.js`
(lines 29–33) requires a Saturday (2022-02-26) to be classified as a working
day — exam slots do exist on Saturdays — so only Sundays and holidays are
non-working here. -/
def isWorkingDay (d : CalDate) : Bool :=
  !isSundayDate d && !isHolidays d

/-! ## Configuration -/

/-- Modelled from the spec: the configurable business constants of the engine
(`config.js` is absent from the sources; the defaults are the ones the spec
and the test fixtures use): retry delay after a non-success outcome in
calendar days, maximum number of practical failures, validity window of the
theory exam in years, and the daily disclosure cutoff hour for slot
visibility. -/
structure AppConfig where
  timeoutToRetry : Nat
  nbMaxEchecsPratiques : Nat
  etgValidityYears : Nat
  cutoffHourDisplay : Nat
deriving DecidableEq

/-- The default configuration: 45-day retry delay, 5 failures maximum,
5-year theory validity, 12h disclosure cutoff. -/
def appConfig : AppConfig :=
  ⟨45, 5, 5, 12⟩

/-! ## Eligibility evaluator -/

/-- Kind of a recorded practical-exam outcome. -/
inductive Outcome
  | echec
  | absent
  | reussite
deriving DecidableEq

/-- Reasons for which the eligibility evaluator may deny booking.
`retryTooSoon` surfaces the exact earliest allowed booking day. -/
inductive DenialReason
  | theoryExpired
  | notValidated
  | retryTooSoon (allowedFrom : Nat)
  | maxFailuresReached
  | alreadyPassed
deriving DecidableEq

/-- A candidate snapshot, as the eligibility evaluator and the booking
orchestrator see it: Aurige-validation flag, theory-exam pass date,
earliest next eligible booking day (`canBookFrom`, a day number), number of
practical failures, failure history, practical-success flag, and the
at-most-one active place reference. -/
structure CandidatRec where
  cid : Nat
  isValidatedByAurige : Bool
  dateReussiteETG : Option CalDate
  canBookFrom : Option Nat
  nbFailures : Nat
  noReussites : List (Nat × Outcome)
  reussitePratique : Bool
  place : Option Nat
deriving DecidableEq

/-- Add `n` years to a civil date, clamping the day to the target month's
length (luxon's year-arithmetic behaviour, relevant only for Feb 29). -/
def addYearsClamped (d : CalDate) (n : Nat) : CalDate :=
  ⟨d.year + n, d.month, min d.day (monthLength (d.year + n) d.month)⟩

/-- Modelled from the spec: the theory gate of the eligibility evaluator.
A candidate passes it exactly when their theory-exam pass date exists and
is at most the configured validity window (5 years) before `now`. -/
def theoryOk (c : CandidatRec) (now : CalDate) : Bool :=
  match c.dateReussiteETG with
  | none => false
  | some etg =>
    decide (toDayNumber now ≤ toDayNumber (addYearsClamped etg appConfig.etgValidityYears))

/-- Modelled from the spec: the eligibility evaluator.  Given a candidate
snapshot and `now`, returns `none` when the candidate may book and the
denial reason otherwise, checking the gates in the spec's order: theory
expiry, Aurige validation, retry delay, failure cap, permanent block after
a practical success.  Pure; no side effects. -/
def getEligibility (c : CandidatRec) (now : CalDate) : Option DenialReason :=
  if !theoryOk c now then some .theoryExpired
  else if !c.isValidatedByAurige then some .notValidated
  else
    match c.canBookFrom with
    | some d =>
      if toDayNumber now < d then some (.retryTooSoon d)
      else if appConfig.nbMaxEchecsPratiques ≤ c.nbFailures then some .maxFailuresReached
      else if c.reussitePratique then some .alreadyPassed
      else none
    | none =>
      if appConfig.nbMaxEchecsPratiques ≤ c.nbFailures then some .maxFailuresReached
      else if c.reussitePratique then some .alreadyPassed
      else none

/-! ## Slot repository -/

/-- A bookable slot ("place"): centre reference, inspector reference, exact
date-time (minutes), disclosure instant (minutes), and the optional booked
candidate reference. -/
structure Slot where
  sid : Nat
  centre : Nat
  inspecteur : Nat
  date : Nat
  visibleAt : Nat
  candidat : Option Nat
deriving DecidableEq

/-- Result of the atomic reservation primitive. -/
inductive ReserveResult
  | success
  | slotAlreadyBooked
  | slotNotFound
deriving DecidableEq

/-- Modelled from the spec: the core concurrency primitive
`reserve(slotId, candidateId)` of the slot repository, restricted to the
targeted slot document (in the code a single conditional atomic update on
the place document, absent from the sources).  It succeeds only when the
slot is currently unbooked, atomically setting the candidate reference;
otherwise it leaves the slot untouched and reports `SLOT_ALREADY_BOOKED`. -/
def reserve (s : Slot) (cid : Nat) : Slot × ReserveResult :=
  match s.candidat with
  | none => ({ s with candidat := some cid }, .success)
  | some _ => (s, .slotAlreadyBooked)

/-- Modelled from the spec: `release(slotId)` of the slot repository,
restricted to the slot document: atomically clears the candidate reference;
idempotent if already free. -/
def release (s : Slot) : Slot :=
  { s with candidat := none }

/-- Serialisation of any set of concurrent `reserve` callers on one slot.
The conditional atomic update is the single serialisation point of the
design, so every concurrent execution is equivalent to running the callers
in some arrival order; this function runs them in a given order and
collects each caller's result. -/
def runReserves : Slot → List Nat → Slot × List ReserveResult
  | s, [] => (s, [])
  | s, c :: cs =>
    let sr := reserve s c
    let rest := runReserves sr.1 cs
    (rest.1, sr.2 :: rest.2)

/-- Minutes per day; instants are minutes, days are instant-div-1440. -/
def minutesPerDay : Nat := 1440

/-- Day number of an instant. -/
def dayOfInstant (t : Nat) : Nat := t / minutesPerDay

/-- Modelled from the spec: the disclosure instant for the slots of day `d`:
slots become visible the day before at the fixed cutoff hour (12h — the
test of the geo-department place counts, src/unnamed/part_005, switches the
visible counts at 12h). -/
def visibleAtOfDay (d : Nat) : Nat :=
  (d - 1) * minutesPerDay + appConfig.cutoffHourDisplay * 60

/-- Modelled from the spec: `findFreeSlots(criteria)` of the slot
repository as the candidate sees it (`place.queries.js` is absent from the
sources): the free future slots of a centre whose disclosure instant has
been reached. -/
def findFreeSlots (slots : List Slot) (centre : Nat) (now : Nat) : List Slot :=
  slots.filter fun s =>
    s.centre == centre && s.candidat == none
      && decide (now < s.date) && decide (s.visibleAt ≤ now)

/-- Modelled from the spec: the available-place count a candidate is shown
for a centre (`countAvailablePlacesByCentre`, absent from the sources):
the number of candidate-visible free slots. -/
def countAvailablePlacesByCentre (slots : List Slot) (centre : Nat) (now : Nat) : Nat :=
  (findFreeSlots slots centre now).length

/-! ## Booking orchestrator and archive ledger -/

/-- Reason codes with which a terminated booking is archived. -/
inductive ArchiveReason
  | candidateCancel
  | examFailed
  | examPassed
  | absent
  | adminRemoved
  | replacedByNewBooking
  | adminMoved
deriving DecidableEq

/-- An entry of the archive ledger: the immutable snapshot of a slot at the
moment it stopped being active for a candidate — slot attributes, reason
code, archive timestamp (a day number), acting user and candidate. -/
structure ArchiveEntry where
  placeId : Nat
  centre : Nat
  inspecteur : Nat
  date : Nat
  archiveReason : ArchiveReason
  archivedAt : Nat
  byUser : Nat
  candidat : Nat
deriving DecidableEq

/-- Build the archive entry for slot `s`. -/
def mkArchiveEntry (s : Slot) (reason : ArchiveReason) (archivedAt byUser cid : Nat) :
    ArchiveEntry :=
  ⟨s.sid, s.centre, s.inspecteur, s.date, reason, archivedAt, byUser, cid⟩

/-- The persisted state the orchestrator coordinates: the slot repository,
the candidate records and the archive ledger. -/
structure St where
  slots : List Slot
  candidats : List CandidatRec
  archive : List ArchiveEntry
deriving DecidableEq

/-- Look a slot up by its id. -/
def findSlot (st : St) (sid : Nat) : Option Slot :=
  st.slots.find? fun s => decide (s.sid = sid)

/-- Look a candidate up by its id. -/
def findCand (st : St) (cid : Nat) : Option CandidatRec :=
  st.candidats.find? fun c => decide (c.cid = cid)

/-- Set the candidate reference of slot `sid` (all other slots untouched). -/
def setSlotCandidat (l : List Slot) (sid : Nat) (v : Option Nat) : List Slot :=
  l.map fun t => if t.sid = sid then { t with candidat := v } else t

/-- Apply `f` to the candidate record of id `cid` (all others untouched). -/
def updateCand (l : List CandidatRec) (cid : Nat) (f : CandidatRec → CandidatRec) :
    List CandidatRec :=
  l.map fun d => if d.cid = cid then f d else d

/-- Result of a booking request. -/
inductive BookResult
  | booked
  | denied (r : DenialReason)
  | slotAlreadyBooked
  | slotNotFound
  | candidatNotFound
deriving DecidableEq

/-- Modelled from the spec: the booking operation of the orchestrator
(`places-business.js`/`candidat` booking business code, absent from the
sources), parameterised by the archive reason used for a displaced previous
booking (`replaced-by-new-booking` for a candidate rebooking, `admin-moved`
for an administrative move).  It runs the eligibility evaluator, then the
repository's atomic reserve; on reservation conflict it returns
`SLOT_ALREADY_BOOKED` with no side effect; on success the new reservation
is taken strictly before the old booking (if any) is torn down, the old
slot is archived and released, and the candidate's active reference is set
to the new slot. -/
def bookSlotAux (st : St) (cid sid : Nat) (oldReason : ArchiveReason) (byUser : Nat)
    (now : CalDate) : St × BookResult :=
  match findCand st cid with
  | none => (st, .candidatNotFound)
  | some c =>
    match getEligibility c now with
    | some r => (st, .denied r)
    | none =>
      match findSlot st sid with
      | none => (st, .slotNotFound)
      | some s =>
        match s.candidat with
        | some _ => (st, .slotAlreadyBooked)
        | none =>
          let slots1 := setSlotCandidat st.slots sid (some cid)
          let cands1 := updateCand st.candidats cid fun d => { d with place := some sid }
          match c.place with
          | none => ({ st with slots := slots1, candidats := cands1 }, .booked)
          | some oldSid =>
            match findSlot st oldSid with
            | none => ({ st with slots := slots1, candidats := cands1 }, .booked)
            | some os =>
              ({ slots := setSlotCandidat slots1 oldSid none,
                 candidats := cands1,
                 archive := st.archive ++
                   [mkArchiveEntry os oldReason (toDayNumber now) byUser cid] },
               .booked)

/-- Modelled from the spec: `bookSlot(candidateId, slotId)` — a candidate
books a slot; a displaced previous booking is archived with reason
`replaced-by-new-booking`, the acting user being the candidate. -/
def bookSlot (st : St) (cid sid : Nat) (now : CalDate) : St × BookResult :=
  bookSlotAux st cid sid .replacedByNewBooking cid now

/-- Modelled from the spec: `moveBooking(candidateId, newSlotId)` — an
administrative move, composed as a booking of the new slot whose displaced
old booking is archived with reason `admin-moved`; if the new reservation
fails the old booking remains untouched. -/
def moveBooking (st : St) (cid sid byUser : Nat) (now : CalDate) : St × BookResult :=
  bookSlotAux st cid sid .adminMoved byUser now

/-- Result of a cancellation request. -/
inductive CancelResult
  | cancelled
  | noActiveBooking
  | candidatNotFound
deriving DecidableEq

/-- Modelled from the spec: `cancelBooking(candidateId, reason, actingUser)`
of the orchestrator (absent from the sources): releases the candidate's
slot in the repository, archives it with the given reason, clears the
candidate's active reference; a no-op if there is no active booking. -/
def cancelBooking (st : St) (cid : Nat) (reason : ArchiveReason) (byUser : Nat)
    (now : CalDate) : St × CancelResult :=
  match findCand st cid with
  | none => (st, .candidatNotFound)
  | some c =>
    match c.place with
    | none => (st, .noActiveBooking)
    | some sid =>
      let cands1 := updateCand st.candidats cid fun d => { d with place := none }
      match findSlot st sid with
      | none => ({ st with candidats := cands1 }, .cancelled)
      | some s =>
        ({ slots := setSlotCandidat st.slots sid none,
           candidats := cands1,
           archive := st.archive ++ [mkArchiveEntry s reason (toDayNumber now) byUser cid] },
         .cancelled)

/-- Archive reason matching a recorded outcome. -/
def outcomeArchiveReason : Outcome → ArchiveReason
  | .echec => .examFailed
  | .absent => .absent
  | .reussite => .examPassed

/-- Modelled from the spec: the candidate-record part of
`recordOutcome`: for a failure or an absence, append to the failure
history and recompute `canBookFrom` as the outcome day plus the configured
retry delay (45 calendar days); for a practical success, mark the candidate
permanently booked-out.  The active reference is cleared in every case. -/
def applyOutcomeToCandidat (c : CandidatRec) (o : Outcome) (day : Nat) : CandidatRec :=
  match o with
  | .echec =>
    { c with canBookFrom := some (day + appConfig.timeoutToRetry),
             nbFailures := c.nbFailures + 1,
             noReussites := c.noReussites ++ [(day, Outcome.echec)],
             place := none }
  | .absent =>
    { c with canBookFrom := some (day + appConfig.timeoutToRetry),
             nbFailures := c.nbFailures + 1,
             noReussites := c.noReussites ++ [(day, Outcome.absent)],
             place := none }
  | .reussite =>
    { c with reussitePratique := true, place := none }

/-- Modelled from the spec: `recordOutcome(candidateId, outcome,
outcomeDate)` of the orchestrator (absent from the sources): updates the
candidate record per the outcome and archives the current booking (if any)
with the matching reason, releasing its slot. -/
def recordOutcome (st : St) (cid : Nat) (o : Outcome) (day byUser : Nat)
    (now : CalDate) : St :=
  match findCand st cid with
  | none => st
  | some c =>
    let cands1 := updateCand st.candidats cid fun d => applyOutcomeToCandidat d o day
    match c.place with
    | none => { st with candidats := cands1 }
    | some sid =>
      match findSlot st sid with
      | none => { st with candidats := cands1 }
      | some s =>
        { slots := setSlotCandidat st.slots sid none,
          candidats := cands1,
          archive := st.archive ++
            [mkArchiveEntry s (outcomeArchiveReason o) (toDayNumber now) byUser cid] }

/-- The booking operations a request can trigger on the engine. -/
inductive Op
  | book (cid sid : Nat) (now : CalDate)
  | move (cid sid byUser : Nat) (now : CalDate)
  | cancel (cid : Nat) (reason : ArchiveReason) (byUser : Nat) (now : CalDate)
  | outcome (cid : Nat) (o : Outcome) (day byUser : Nat) (now : CalDate)
deriving DecidableEq

/-- Apply one operation to the state. -/
def applyOp (st : St) : Op → St
  | .book cid sid now => (bookSlot st cid sid now).1
  | .move cid sid u now => (moveBooking st cid sid u now).1
  | .cancel cid r u now => (cancelBooking st cid r u now).1
  | .outcome cid o day u now => recordOutcome st cid o day u now

/-- Apply a sequence of operations to the state. -/
def applyOps (st : St) (ops : List Op) : St :=
  ops.foldl applyOp st

/-- Number of slots whose active candidate reference is `cid`. -/
def activeBookingCount (st : St) (cid : Nat) : Nat :=
  (st.slots.filter fun s => decide (s.candidat = some cid)).length

/-- Well-formedness of a persisted state: slot ids and candidate ids are
unique, every booked slot's candidate points back at it, and every
candidate's active reference names a slot booked by that candidate. -/
def WF (st : St) : Prop :=
  (st.slots.map Slot.sid).Nodup ∧
  (st.candidats.map CandidatRec.cid).Nodup ∧
  (∀ s ∈ st.slots,
    s.candidat = none ∨
      ∃ c ∈ st.candidats, s.candidat = some c.cid ∧ c.place = some s.sid) ∧
  (∀ c ∈ st.candidats,
    c.place = none ∨
      ∃ s ∈ st.slots, c.place = some s.sid ∧ s.candidat = some c.cid)

/-! ## Controller layer present in the sources -/

/-- Response of the admin reservation-removal endpoint: HTTP status,
success flag, and whether the removal action (which archives the booking
and mutates state) was invoked. -/
structure AdminRemoveOutcome where
  status : Nat
  success : Bool
  removalInvoked : Bool
deriving DecidableEq

/-- Embedding of `removeReservationByAdmin` of
`src/routes/admin/places-controllers.js`: the admin is looked up (404 when
missing), the place id is required (404 when missing), the place is looked
up with its candidate populated (404 when missing); when the place has no
candidate the endpoint answers 400 `PLACE_IS_NOT_BOOKED` without invoking
the removal action; otherwise the removal action runs and the endpoint
answers 200.  The inputs are the results of the lookups. -/
def removeReservationByAdmin (admin : Option Nat) (placeId : Option Nat)
    (place : Option Slot) : AdminRemoveOutcome :=
  match admin with
  | none => ⟨404, false, false⟩
  | some _ =>
    match placeId with
    | none => ⟨404, false, false⟩
    | some _ =>
      match place with
      | none => ⟨404, false, false⟩
      | some p =>
        match p.candidat with
        | none => ⟨400, false, false⟩
        | some _ => ⟨200, true, true⟩

/-- An exam centre: department and active flag (the fields the status
update inspects). -/
structure Centre where
  id : Nat
  departement : Nat
  active : Bool
deriving DecidableEq

/-- An administrator: the departments they may act on. -/
structure AdminUser where
  uid : Nat
  email : Nat
  departements : List Nat
deriving DecidableEq

/-- Outcome of a centre status-update request. -/
inductive CentreUpdateOutcome
  | errNotFound
  | errForbidden
  | errHasFuturePlaces
  | updated (c : Centre)
deriving DecidableEq

/-- Modelled from the spec: `updateCentreActiveState` of the centre model
(absent from the sources): writes the desired active flag. -/
def updateCentreActiveState (c : Centre) (status : Bool) : Centre :=
  { c with active := status }

/-- Embedding of `updateCentreStatus` of the centre business module (in
`src/routes/candidat/departements-controllers.js`): 404 when the centre is
not found; 403 when the acting user's departments do not include the
centre's; 409 (centre cannot be archived) when the centre still owns
places — the query behind `futurePlaces` returns the centre's upcoming
places — and the request asks for deactivation; otherwise the active flag
is written.  The inputs are the results of the lookups. -/
def updateCentreStatus (centre : Option Centre) (user : AdminUser)
    (futurePlaces : List Nat) (status : Bool) : CentreUpdateOutcome :=
  match centre with
  | none => .errNotFound
  | some c =>
    if ¬ (c.departement ∈ user.departements) then .errForbidden
    else if futurePlaces.length ≠ 0 ∧ status = false then .errHasFuturePlaces
    else .updated (updateCentreActiveState c status)

/-! ## Candidate creation and name normalisation -/

/-- Mapping of accented French letters to their base letter (the candidate
model stores names with diacritics removed). -/
def deaccentChar (ch : Char) : Char :=
  match ch with
  | 'à' | 'á' | 'â' | 'ä' | 'ã' => 'a'
  | 'è' | 'é' | 'ê' | 'ë' => 'e'
  | 'ì' | 'í' | 'î' | 'ï' => 'i'
  | 'ò' | 'ó' | 'ô' | 'ö' | 'õ' => 'o'
  | 'ù' | 'ú' | 'û' | 'ü' => 'u'
  | 'ç' => 'c'
  | 'ñ' => 'n'
  | 'ý' | 'ÿ' => 'y'
  | 'À' | 'Á' | 'Â' | 'Ä' | 'Ã' => 'A'
  | 'È' | 'É' | 'Ê' | 'Ë' => 'E'
  | 'Ì' | 'Í' | 'Î' | 'Ï' => 'I'
  | 'Ò' | 'Ó' | 'Ô' | 'Ö' | 'Õ' => 'O'
  | 'Ù' | 'Ú' | 'Û' | 'Ü' => 'U'
  | 'Ç' => 'C'
  | 'Ñ' => 'N'
  | c => c

/-- Modelled from the spec: diacritics removal applied by the candidate
model before storing names (`candidat.model.js` is absent from the
sources; its test expects input Dìàçrítïcs/Prénôm to be stored as
DIACRITICS/Prenom). -/
def sansAccent (s : String) : String :=
  String.mk (s.data.map deaccentChar)

/-- Modelled from the spec: normalisation of the birth name — diacritics
removed, then uppercased. -/
def normalizeNomNaissance (s : String) : String :=
  String.mk ((sansAccent s).data.map Char.toUpper)

/-- The signup payload of a candidate creation. -/
structure CandidatSignup where
  codeNeph : String
  nomNaissance : String
  prenom : String
  email : String
deriving DecidableEq

/-- A stored candidate document (the fields relevant to creation). -/
structure CandidatDoc where
  codeNeph : String
  nomNaissance : String
  prenom : String
  email : String
deriving DecidableEq

/-- Result of a candidate creation. -/
inductive CreateCandidatResult
  | created (store : List CandidatDoc) (doc : CandidatDoc)
  | duplicateKey
deriving DecidableEq

/-- Modelled from the spec: `createCandidat` of the candidate model (absent
from the sources): stores the birth name uppercased with diacritics
removed and the first name with diacritics removed, and rejects with a
duplicate-key error a candidate whose (codeNeph, normalised nomNaissance)
key — or email — is already present. -/
def createCandidat (store : List CandidatDoc) (input : CandidatSignup) :
    CreateCandidatResult :=
  let nom := normalizeNomNaissance input.nomNaissance
  let pre := sansAccent input.prenom
  let doc : CandidatDoc := ⟨input.codeNeph, nom, pre, input.email⟩
  if store.any fun c => decide (c.codeNeph = input.codeNeph ∧ c.nomNaissance = nom) then
    .duplicateKey
  else if store.any fun c => decide (c.email = input.email) then
    .duplicateKey
  else
    .created (store ++ [doc]) doc

/-! ## Basic lemmas about lookups and updates -/

theorem findSlot_mem {st : St} {sid : Nat} {s : Slot} (h : findSlot st sid = some s) :
    s ∈ st.slots ∧ s.sid = sid := by
  refine ⟨List.mem_of_find?_eq_some h, ?_⟩
  have h2 := List.find?_some h
  simpa using h2

theorem findCand_mem {st : St} {cid : Nat} {c : CandidatRec} (h : findCand st cid = some c) :
    c ∈ st.candidats ∧ c.cid = cid := by
  refine ⟨List.mem_of_find?_eq_some h, ?_⟩
  have h2 := List.find?_some h
  simpa using h2

theorem findSlot_none {st : St} {sid : Nat} (h : findSlot st sid = none) :
    ∀ s ∈ st.slots, s.sid ≠ sid := by
  intro s hs
  have h2 := List.find?_eq_none.mp h s hs
  simpa using h2

theorem setSlotCandidat_map_sid (l : List Slot) (sid : Nat) (v : Option Nat) :
    (setSlotCandidat l sid v).map Slot.sid = l.map Slot.sid := by
  unfold setSlotCandidat
  rw [List.map_map]
  refine List.map_congr_left ?_
  intro t _
  by_cases h : t.sid = sid <;> simp [h]

theorem updateCand_map_cid (l : List CandidatRec) (cid : Nat) (f : CandidatRec → CandidatRec)
    (hf : ∀ d, (f d).cid = d.cid) :
    (updateCand l cid f).map CandidatRec.cid = l.map CandidatRec.cid := by
  unfold updateCand
  rw [List.map_map]
  refine List.map_congr_left ?_
  intro d _
  by_cases h : d.cid = cid <;> simp [h, hf]

theorem mem_of_mem_setSlotCandidat {l : List Slot} {sid : Nat} {v : Option Nat} {s2 : Slot}
    (h : s2 ∈ setSlotCandidat l sid v) :
    ∃ s ∈ l, s2 = if s.sid = sid then { s with candidat := v } else s := by
  unfold setSlotCandidat at h
  obtain ⟨s, hs, h2⟩ := List.mem_map.mp h
  exact ⟨s, hs, h2.symm⟩

theorem setSlotCandidat_mem_of_mem {l : List Slot} {sid : Nat} {v : Option Nat} {s : Slot}
    (h : s ∈ l) :
    (if s.sid = sid then { s with candidat := v } else s) ∈ setSlotCandidat l sid v :=
  List.mem_map_of_mem _ h

theorem mem_of_mem_updateCand {l : List CandidatRec} {cid : Nat} {f : CandidatRec → CandidatRec}
    {d2 : CandidatRec} (h : d2 ∈ updateCand l cid f) :
    ∃ d ∈ l, d2 = if d.cid = cid then f d else d := by
  unfold updateCand at h
  obtain ⟨d, hd, h2⟩ := List.mem_map.mp h
  exact ⟨d, hd, h2.symm⟩

theorem updateCand_mem_of_mem {l : List CandidatRec} {cid : Nat} {f : CandidatRec → CandidatRec}
    {d : CandidatRec} (h : d ∈ l) :
    (if d.cid = cid then f d else d) ∈ updateCand l cid f :=
  List.mem_map_of_mem _ h

theorem find?_map_comm {α : Type} (p : α → Bool) (g : α → α) (l : List α)
    (hg : ∀ a, p (g a) = p a) : (l.map g).find? p = (l.find? p).map g := by
  induction l with
  | nil => simp
  | cons a l ih =>
    by_cases h : p a = true
    · rw [List.map_cons, List.find?_cons_of_pos _ (by rw [hg]; exact h),
        List.find?_cons_of_pos _ h, Option.map_some']
    · rw [List.map_cons, List.find?_cons_of_neg _ (by rw [hg]; simpa using h),
        List.find?_cons_of_neg _ (by simpa using h), ih]

theorem findCand_updateCand {st : St} {cid : Nat} {c : CandidatRec}
    (hc : findCand st cid = some c) (f : CandidatRec → CandidatRec)
    (hf : ∀ d, (f d).cid = d.cid) :
    (updateCand st.candidats cid f).find? (fun d => decide (d.cid = cid)) = some (f c) := by
  unfold updateCand
  rw [find?_map_comm]
  · unfold findCand at hc
    rw [hc, Option.map_some']
    have hcid : c.cid = cid := by simpa using List.find?_some hc
    simp [hcid]
  · intro a
    by_cases h : a.cid = cid <;> simp [h, hf]

theorem activeCount_le_one_of_WF {st : St} (hw : WF st) (cid : Nat) :
    activeBookingCount st cid ≤ 1 := by
  obtain ⟨hns, hnc, hback, _⟩ := hw
  unfold activeBookingCount
  by_contra hgt
  push_neg at hgt
  rcases hfl : st.slots.filter (fun s => decide (s.candidat = some cid)) with _ | ⟨a, _ | ⟨b, l⟩⟩
  · rw [hfl] at hgt; simp at hgt
  · rw [hfl] at hgt; simp at hgt
  · have hsub : (a :: b :: l).Sublist st.slots := by
      rw [← hfl]; exact List.filter_sublist st.slots
    have hndl : ((a :: b :: l).map Slot.sid).Nodup := hns.sublist (hsub.map Slot.sid)
    have hab : a.sid ≠ b.sid := by
      have h2 := (List.nodup_cons.mp hndl).1
      intro h3
      exact h2 (by rw [h3]; exact List.mem_cons_self _ _)
    have hamem : a ∈ st.slots := hsub.subset (List.mem_cons_self _ _)
    have hbmem : b ∈ st.slots := hsub.subset (List.mem_cons_of_mem _ (List.mem_cons_self _ _))
    have hap : a.candidat = some cid := by
      have h2 : a ∈ st.slots.filter (fun s => decide (s.candidat = some cid)) := by
        rw [hfl]; exact List.mem_cons_self _ _
      simpa using (List.mem_filter.mp h2).2
    have hbp : b.candidat = some cid := by
      have h2 : b ∈ st.slots.filter (fun s => decide (s.candidat = some cid)) := by
        rw [hfl]; exact List.mem_cons_of_mem _ (List.mem_cons_self _ _)
      simpa using (List.mem_filter.mp h2).2
    rcases hback a hamem with h2 | ⟨c1, hc1, hac1, hpl1⟩
    · rw [hap] at h2; exact Option.noConfusion h2
    rcases hback b hbmem with h2 | ⟨c2, hc2, hac2, hpl2⟩
    · rw [hbp] at h2; exact Option.noConfusion h2
    have hc1id : c1.cid = cid := by rw [hap] at hac1; exact (Option.some.injEq _ _ ▸ hac1).symm
    have hc2id : c2.cid = cid := by rw [hbp] at hac2; exact (Option.some.injEq _ _ ▸ hac2).symm
    have hceq : c1 = c2 :=
      List.inj_on_of_nodup_map hnc hc1 hc2 (by rw [hc1id, hc2id])
    apply hab
    have h3 : some a.sid = some b.sid := by rw [← hpl1, hceq, hpl2]
    exact Option.some.injEq _ _ ▸ h3

/-! ## Claim theorems -/

theorem runReserves_of_booked {s : Slot} {x : Nat} (l : List Nat) (h : s.candidat = some x) :
    runReserves s l = (s, l.map fun _ => ReserveResult.slotAlreadyBooked) := by
  induction l with
  | nil => simp [runReserves]
  | cons c cs ih => simp [runReserves, reserve, h, ih]

theorem count_slotAlreadyBooked_map (cs : List Nat) :
    ((cs.map fun _ => ReserveResult.slotAlreadyBooked).count ReserveResult.success) = 0 := by
  induction cs with
  | nil => rfl
  | cons c cs ih => simpa [List.count_cons] using ih

/-- C1: for any single slot and any set of concurrent reserve/bookSlot
callers targeting that slot, exactly one caller succeeds, every other
caller receives SLOT_ALREADY_BOOKED, and the slot's final candidate
reference is the winner's candidate.  The conditional atomic update is the
single serialisation point, so a concurrent execution is equivalent to the
serialisation of the callers in some arrival order `c :: cs`; the first
caller in that order is the winner.  The last conjunct carries the
statement up to `bookSlot`: an orchestrated booking whose slot is already
taken returns SLOT_ALREADY_BOOKED with the state untouched. -/
theorem candilib_C1_single_winner (s : Slot) (c : Nat) (cs : List Nat)
    (hfree : s.candidat = none) :
    (runReserves s (c :: cs)).1.candidat = some c ∧
    (runReserves s (c :: cs)).2 =
      ReserveResult.success :: (cs.map fun _ => ReserveResult.slotAlreadyBooked) ∧
    (runReserves s (c :: cs)).2.count ReserveResult.success = 1 ∧
    (∀ st cid sid (now : CalDate) c0 s0 x,
      findCand st cid = some c0 → getEligibility c0 now = none →
      findSlot st sid = some s0 → s0.candidat = some x →
      bookSlot st cid sid now = (st, BookResult.slotAlreadyBooked)) := by
  have hres : reserve s c = ({ s with candidat := some c }, ReserveResult.success) := by
    simp [reserve, hfree]
  have hrun : runReserves s (c :: cs) =
      ({ s with candidat := some c },
        ReserveResult.success :: (cs.map fun _ => ReserveResult.slotAlreadyBooked)) := by
    simp [runReserves, hres, runReserves_of_booked cs (show ({ s with candidat := some c } : Slot).candidat = some c from rfl)]
  refine ⟨by rw [hrun], by rw [hrun], ?_, ?_⟩
  · rw [hrun]
    simpa [List.count_cons] using count_slotAlreadyBooked_map cs
  · intro st cid sid now c0 s0 x hc0 helig hs0 hx
    simp [bookSlot, bookSlotAux, hc0, helig, hs0, hx]

/-- Witness for C1 at a concrete slot and three concrete callers. -/
theorem candilib_C1_single_winner_witness :
    (runReserves ⟨1, 1, 1, 1000, 0, none⟩ [7, 8, 9]).1.candidat = some 7 ∧
    (runReserves ⟨1, 1, 1, 1000, 0, none⟩ [7, 8, 9]).2 =
      [ReserveResult.success, ReserveResult.slotAlreadyBooked,
        ReserveResult.slotAlreadyBooked] := by
  have h := candilib_C1_single_winner ⟨1, 1, 1, 1000, 0, none⟩ 7 [8, 9] rfl
  exact ⟨h.1, by rw [h.2.1]; rfl⟩

/-- C3: for every candidate and every recorded non-success outcome (failure
or absence) with outcome day D, recordOutcome sets the candidate's
canBookFrom to exactly D plus the configured retry delay — 45 by default —
counted in day numbers, i.e. calendar days (every day counts, none
skipped), not business days. -/
theorem candilib_C3_retry_delay (st : St) (cid : Nat) (o : Outcome) (day byUser : Nat)
    (now : CalDate) (c : CandidatRec) (hc : findCand st cid = some c)
    (ho : o = Outcome.echec ∨ o = Outcome.absent) :
    findCand (recordOutcome st cid o day byUser now) cid =
      some (applyOutcomeToCandidat c o day) ∧
    (applyOutcomeToCandidat c o day).canBookFrom = some (day + appConfig.timeoutToRetry) ∧
    appConfig.timeoutToRetry = 45 := by
  have hf : ∀ d : CandidatRec, (applyOutcomeToCandidat d o day).cid = d.cid := by
    intro d; cases o <;> rfl
  have hupd := findCand_updateCand hc (fun d => applyOutcomeToCandidat d o day) hf
  refine ⟨?_, ?_, rfl⟩
  · unfold recordOutcome
    rw [hc]
    rcases hp : c.place with _ | sid
    · simp only [hp]
      simpa [findCand] using hupd
    · simp only [hp]
      rcases hfs : findSlot st sid with _ | s <;> simp only [hfs] <;>
        simpa [findCand] using hupd
  · rcases ho with h | h <;> (subst h; rfl)

/-- Witness for C3: a concrete candidate who fails on day 1000 may book
again from day 1045. -/
theorem candilib_C3_retry_delay_witness :
    (applyOutcomeToCandidat ⟨5, true, some ⟨2021, 3, 1⟩, none, 1, [], false, none⟩
        Outcome.echec 1000).canBookFrom = some 1045 := by
  have h := candilib_C3_retry_delay ⟨[], [⟨5, true, some ⟨2021, 3, 1⟩, none, 1, [], false, none⟩], []⟩
    5 Outcome.echec 1000 0 ⟨2021, 3, 10⟩ ⟨5, true, some ⟨2021, 3, 1⟩, none, 1, [], false, none⟩
    (by decide) (Or.inl rfl)
  exact h.2.1

/-- C4 counterexample: the claim states that the business-day
classification returns false for every Saturday.  On Saturday 2022-02-26 —
the very date the repository's test `date-util.spec.js` (lines 29–33)
exercises, expecting true — the classification returns true, so the claim
as stated is false. -/
theorem candilib_C4_counterexample :
    isWeekendDate ⟨2022, 2, 26⟩ = true ∧ isSaturdayDate ⟨2022, 2, 26⟩ = true ∧
    isWorkingDay ⟨2022, 2, 26⟩ = true := by
  decide

/-- C4 (amended): the business-day classification returns false exactly for
Sundays and for the dates of the fixed per-year holiday table (including
the Easter-based moving holidays such as Ascension); Saturdays without a
holiday are working days.  The concrete conjuncts replay the repository's
test dates: Ascension 2022 (2022-05-26, computed from the Easter computus)
is a holiday and not a working day, Saturday 2022-02-26 is a working day,
Sunday 2022-03-27 is not. -/
theorem candilib_C4_business_day_classification :
    (∀ d : CalDate, isWorkingDay d = false ↔ (isSundayDate d = true ∨ isHolidays d = true)) ∧
    (∀ y : Nat, ascension y ∈ joursFeries y) ∧
    ascension 2022 = (5, 26) ∧
    isHolidays ⟨2022, 5, 26⟩ = true ∧
    isWorkingDay ⟨2022, 5, 26⟩ = false ∧
    isHolidays ⟨2022, 2, 26⟩ = false ∧
    isWorkingDay ⟨2022, 2, 26⟩ = true ∧
    isWorkingDay ⟨2022, 3, 27⟩ = false := by
  refine ⟨?_, ?_, by decide, by decide, by decide, by decide, by decide, by decide⟩
  · intro d
    unfold isWorkingDay
    rcases h1 : isSundayDate d <;> rcases h2 : isHolidays d <;> simp
  · intro y
    unfold joursFeries
    simp

/-- Witness for C4 (amended): 2022-05-08 (a Sunday that is also a fixed
holiday) is classified non-working, via the general equivalence. -/
theorem candilib_C4_business_day_classification_witness :
    isWorkingDay ⟨2022, 5, 8⟩ = false :=
  (candilib_C4_business_day_classification.1 ⟨2022, 5, 8⟩).mpr (Or.inr (by decide))

/-- C5: a candidate whose theory-exam pass date is more than the configured
validity window (5 years, with luxon year arithmetic) before now is denied
with THEORY_EXPIRED by the eligibility evaluation; a candidate whose pass
date is within the window passes the theory gate (the evaluation never
answers THEORY_EXPIRED for them). -/
theorem candilib_C5_theory_expiry (c : CandidatRec) (now : CalDate) (etg : CalDate)
    (hetg : c.dateReussiteETG = some etg) :
    (toDayNumber (addYearsClamped etg appConfig.etgValidityYears) < toDayNumber now →
        getEligibility c now = some DenialReason.theoryExpired) ∧
    (toDayNumber now ≤ toDayNumber (addYearsClamped etg appConfig.etgValidityYears) →
        getEligibility c now ≠ some DenialReason.theoryExpired) := by
  constructor
  · intro h
    have h1 : theoryOk c now = false := by
      simp only [theoryOk, hetg, decide_eq_false_iff_not, Nat.not_le]
      exact h
    simp [getEligibility, h1]
  · intro h
    have h1 : theoryOk c now = true := by
      simp only [theoryOk, hetg, decide_eq_true_eq]
      exact h
    cases hb : c.isValidatedByAurige <;> rcases hcb : c.canBookFrom with _ | d <;>
      simp [getEligibility, h1, hb, hcb] <;> split_ifs <;> simp

/-- Witness for C5: a candidate who passed theory on 2017-01-02 is denied
THEORY_EXPIRED on 2023-01-01 (more than five years later), and is not
denied THEORY_EXPIRED on 2022-01-01 (within the window). -/
theorem candilib_C5_theory_expiry_witness :
    getEligibility ⟨5, true, some ⟨2017, 1, 2⟩, none, 0, [], false, none⟩ ⟨2023, 1, 1⟩ =
      some DenialReason.theoryExpired ∧
    getEligibility ⟨5, true, some ⟨2017, 1, 2⟩, none, 0, [], false, none⟩ ⟨2022, 1, 1⟩ ≠
      some DenialReason.theoryExpired := by
  constructor
  · exact (candilib_C5_theory_expiry ⟨5, true, some ⟨2017, 1, 2⟩, none, 0, [], false, none⟩
      ⟨2023, 1, 1⟩ ⟨2017, 1, 2⟩ rfl).1 (by decide)
  · exact (candilib_C5_theory_expiry ⟨5, true, some ⟨2017, 1, 2⟩, none, 0, [], false, none⟩
      ⟨2022, 1, 1⟩ ⟨2017, 1, 2⟩ rfl).2 (by decide)

/-- C6: a free future slot of a centre is excluded from the
candidate-visible results of findFreeSlots while now is before its
disclosure instant — the day before the slot's day, at the fixed cutoff
hour (12h) — and included once now is at or after that instant; the
available-place count is the number of those visible slots. -/
theorem candilib_C6_visible_at (slots : List Slot) (s : Slot) (centre now : Nat)
    (hmem : s ∈ slots) (hc : s.centre = centre) (hfree : s.candidat = none)
    (hfuture : now < s.date)
    (hvis : s.visibleAt = visibleAtOfDay (dayOfInstant s.date)) :
    (now < visibleAtOfDay (dayOfInstant s.date) → s ∉ findFreeSlots slots centre now) ∧
    (visibleAtOfDay (dayOfInstant s.date) ≤ now → s ∈ findFreeSlots slots centre now) ∧
    countAvailablePlacesByCentre slots centre now = (findFreeSlots slots centre now).length := by
  refine ⟨?_, ?_, rfl⟩
  · intro hlt hin
    have h2 := (List.mem_filter.mp hin).2
    rw [← hvis] at hlt
    simp [hc, hfree, hfuture] at h2
    omega
  · intro hle
    refine List.mem_filter.mpr ⟨hmem, ?_⟩
    rw [← hvis] at hle
    simp [hc, hfree, hfuture, hle]

/-- Witness for C6 at a concrete slot on day 100 (date = minute 144480,
8h00): its disclosure instant is minute 143280 (day 99 at 12h00); at
minute 143279 the slot is hidden, at minute 143280 it is shown. -/
theorem candilib_C6_visible_at_witness :
    (⟨3, 9, 4, 144480, 143280, none⟩ : Slot) ∉
      findFreeSlots [⟨3, 9, 4, 144480, 143280, none⟩] 9 143279 ∧
    (⟨3, 9, 4, 144480, 143280, none⟩ : Slot) ∈
      findFreeSlots [⟨3, 9, 4, 144480, 143280, none⟩] 9 143280 := by
  constructor
  · exact (candilib_C6_visible_at [⟨3, 9, 4, 144480, 143280, none⟩] ⟨3, 9, 4, 144480, 143280, none⟩
      9 143279 (by decide) rfl rfl (by decide) (by decide)).1 (by decide)
  · exact (candilib_C6_visible_at [⟨3, 9, 4, 144480, 143280, none⟩] ⟨3, 9, 4, 144480, 143280, none⟩
      9 143280 (by decide) rfl rfl (by decide) (by decide)).2.1 (by decide)

/-- C7 counterexample: the claim states that a cancellation for a candidate
with no active booking returns without error.  The repository's own
cancellation endpoint (`removeReservationByAdmin`,
src/routes/admin/places-controllers.js) answers a request whose place has
no booked candidate with HTTP 400 and success false — an error — so the
claim as stated is false at this concrete input (admin 1, place id 1, a
free place). -/
theorem candilib_C7_counterexample :
    (removeReservationByAdmin (some 1) (some 1) (some ⟨1, 1, 1, 1000, 0, none⟩)).success
        = false ∧
    (removeReservationByAdmin (some 1) (some 1) (some ⟨1, 1, 1, 1000, 0, none⟩)).status
        = 400 := by
  decide

/-- C7 (amended): cancelling when there is no active booking changes no
state and creates no archive entry, and invoking it twice in a row behaves
identically — but the caller is told about it: the admin endpoint answers
PLACE_IS_NOT_BOOKED with HTTP 400 and success false (the removal action is
never invoked), and the orchestrator's cancelBooking returns the state
unchanged with a no-active-booking result, twice in a row. -/
theorem candilib_C7_cancel_without_booking (a i : Nat) (p : Slot)
    (hp : p.candidat = none)
    (st : St) (cid : Nat) (r : ArchiveReason) (u : Nat) (now : CalDate) (c : CandidatRec)
    (hc : findCand st cid = some c) (hplace : c.place = none) :
    removeReservationByAdmin (some a) (some i) (some p) = ⟨400, false, false⟩ ∧
    cancelBooking st cid r u now = (st, CancelResult.noActiveBooking) ∧
    cancelBooking (cancelBooking st cid r u now).1 cid r u now =
      (st, CancelResult.noActiveBooking) := by
  have h1 : removeReservationByAdmin (some a) (some i) (some p) = ⟨400, false, false⟩ := by
    simp [removeReservationByAdmin, hp]
  have h2 : cancelBooking st cid r u now = (st, CancelResult.noActiveBooking) := by
    unfold cancelBooking
    rw [hc]
    simp only [hplace]
  exact ⟨h1, h2, by rw [h2]; exact h2⟩

/-- Witness for C7 (amended) at a concrete free place and a concrete
candidate without a booking. -/
theorem candilib_C7_cancel_without_booking_witness :
    removeReservationByAdmin (some 2) (some 3) (some ⟨3, 1, 1, 1000, 0, none⟩) =
      ⟨400, false, false⟩ ∧
    cancelBooking ⟨[], [⟨5, true, none, none, 0, [], false, none⟩], []⟩ 5
        ArchiveReason.candidateCancel 5 ⟨2022, 1, 1⟩ =
      (⟨[], [⟨5, true, none, none, 0, [], false, none⟩], []⟩,
        CancelResult.noActiveBooking) := by
  have h := candilib_C7_cancel_without_booking 2 3 ⟨3, 1, 1, 1000, 0, none⟩ rfl
    ⟨[], [⟨5, true, none, none, 0, [], false, none⟩], []⟩ 5
    ArchiveReason.candidateCancel 5 ⟨2022, 1, 1⟩ ⟨5, true, none, none, 0, [], false, none⟩
    (by decide) rfl
  exact ⟨h.1, h.2.1⟩

/-- C9: deactivating a centre that still owns future slots fails with the
409 conflict error and does not write the active flag (no updated centre is
produced); deactivation succeeds — writing active := false — exactly when
the centre owns no future slot.  Embedded from `updateCentreStatus` in the
centre business module; `futurePlaces` is the result of the
places-by-centre query, the centre's upcoming slots. -/
theorem candilib_C9_centre_deactivation (c : Centre) (user : AdminUser)
    (futurePlaces : List Nat) (hacc : c.departement ∈ user.departements) :
    (futurePlaces ≠ [] →
      updateCentreStatus (some c) user futurePlaces false =
          CentreUpdateOutcome.errHasFuturePlaces ∧
      ∀ c2, updateCentreStatus (some c) user futurePlaces false ≠
          CentreUpdateOutcome.updated c2) ∧
    (futurePlaces = [] →
      updateCentreStatus (some c) user futurePlaces false =
        CentreUpdateOutcome.updated (updateCentreActiveState c false)) ∧
    (∀ c2, updateCentreStatus (some c) user futurePlaces false =
        CentreUpdateOutcome.updated c2 → futurePlaces = []) := by
  by_cases hl : futurePlaces = []
  · subst hl
    refine ⟨fun h => absurd rfl h, fun _ => ?_, fun c2 _ => rfl⟩
    simp [updateCentreStatus, hacc]
  · have hlen : futurePlaces.length ≠ 0 := by
      simpa [List.length_eq_zero] using hl
    have h : updateCentreStatus (some c) user futurePlaces false =
        CentreUpdateOutcome.errHasFuturePlaces := by
      simp [updateCentreStatus, hacc, hlen]
    exact ⟨fun _ => ⟨h, fun c2 => by rw [h]; exact fun h2 => CentreUpdateOutcome.noConfusion h2⟩,
      fun h2 => absurd h2 hl, fun c2 h2 => by rw [h] at h2; exact absurd h2 (by simp)⟩

/-- Witness for C9: a centre with one future slot cannot be deactivated; the
same centre with none can. -/
theorem candilib_C9_centre_deactivation_witness :
    updateCentreStatus (some ⟨1, 93, true⟩) ⟨7, 7, [93]⟩ [11] false =
      CentreUpdateOutcome.errHasFuturePlaces ∧
    updateCentreStatus (some ⟨1, 93, true⟩) ⟨7, 7, [93]⟩ [] false =
      CentreUpdateOutcome.updated ⟨1, 93, false⟩ := by
  constructor
  · exact ((candilib_C9_centre_deactivation ⟨1, 93, true⟩ ⟨7, 7, [93]⟩ [11]
      (by decide)).1 (by decide)).1
  · exact (candilib_C9_centre_deactivation ⟨1, 93, true⟩ ⟨7, 7, [93]⟩ []
      (by decide)).2.1 rfl

/-- C10: a created candidate is stored with the birth name uppercased and
diacritics removed and the first name with diacritics removed (the
repository's test expects input Dìàçrítïcs/Prénôm to be stored as
DIACRITICS/Prenom), and uniqueness of the (codeNeph, nomNaissance) key is
decided on the normalised form: a second signup whose code and normalised
birth name collide with a stored candidate is rejected with a
duplicate-key error. -/
theorem candilib_C10_name_normalisation (store st1 : List CandidatDoc)
    (input in2 : CandidatSignup) (d1 : CandidatDoc)
    (hcr : createCandidat store input = CreateCandidatResult.created st1 d1)
    (hneph : in2.codeNeph = input.codeNeph)
    (hnom : normalizeNomNaissance in2.nomNaissance = d1.nomNaissance) :
    d1.nomNaissance = normalizeNomNaissance input.nomNaissance ∧
    d1.prenom = sansAccent input.prenom ∧
    createCandidat st1 in2 = CreateCandidatResult.duplicateKey ∧
    normalizeNomNaissance "Dìàçrítïcs" = "DIACRITICS" ∧
    sansAccent "Prénôm" = "Prenom" := by
  simp only [createCandidat] at hcr
  split_ifs at hcr with h1 h2
  cases hcr
  refine ⟨rfl, rfl, ?_, by decide, by decide⟩
  have hmem :
      (⟨input.codeNeph, normalizeNomNaissance input.nomNaissance, sansAccent input.prenom,
        input.email⟩ : CandidatDoc) ∈
        store ++ [⟨input.codeNeph, normalizeNomNaissance input.nomNaissance,
          sansAccent input.prenom, input.email⟩] := by
    simp
  have hany : (store ++ [(⟨input.codeNeph, normalizeNomNaissance input.nomNaissance,
      sansAccent input.prenom, input.email⟩ : CandidatDoc)]).any
      (fun c => decide (c.codeNeph = in2.codeNeph ∧
        c.nomNaissance = normalizeNomNaissance in2.nomNaissance)) = true := by
    refine List.any_eq_true.mpr ⟨_, hmem, ?_⟩
    simp only [decide_eq_true_eq]
    exact ⟨hneph.symm, hnom.symm⟩
  simp only [createCandidat, hany, if_true]

/-- Witness for C10: creating Dìàçrítïcs/Prénôm stores DIACRITICS/Prenom,
and a second signup with the same neph and the differently-accented name
Diacritics (same normalised form) is rejected as a duplicate. -/
theorem candilib_C10_name_normalisation_witness :
    (⟨"123456789012", "DIACRITICS", "Prenom", "a@b.fr"⟩ : CandidatDoc).nomNaissance =
      normalizeNomNaissance "Dìàçrítïcs" ∧
    createCandidat [⟨"123456789012", "DIACRITICS", "Prenom", "a@b.fr"⟩]
      ⟨"123456789012", "Diacritics", "Jean", "c@d.fr"⟩ =
      CreateCandidatResult.duplicateKey := by
  have h := candilib_C10_name_normalisation []
    [⟨"123456789012", "DIACRITICS", "Prenom", "a@b.fr"⟩]
    ⟨"123456789012", "Dìàçrítïcs", "Prénôm", "a@b.fr"⟩
    ⟨"123456789012", "Diacritics", "Jean", "c@d.fr"⟩
    ⟨"123456789012", "DIACRITICS", "Prenom", "a@b.fr"⟩
    (by decide) rfl (by decide)
  exact ⟨h.1, h.2.2.1⟩

/-! ## Preservation of well-formedness by the orchestrator operations -/

theorem WF_touch_unbooked {st : St} {cid : Nat} {c : CandidatRec}
    (hw : WF st) (hc : findCand st cid = some c) (hcp : c.place = none)
    (f : CandidatRec → CandidatRec) (hf : ∀ d, (f d).cid = d.cid)
    (hfp : ∀ d, (f d).place = none) :
    WF { st with candidats := updateCand st.candidats cid f } := by
  obtain ⟨hns, hnc, hback, hfwd⟩ := hw
  obtain ⟨hcmem, hccid⟩ := findCand_mem hc
  refine ⟨hns, ?_, ?_, ?_⟩
  · rw [updateCand_map_cid _ _ _ hf]; exact hnc
  · intro s2 hs2
    rcases hback s2 hs2 with h | ⟨c0, hc0, hsc0, hc0p⟩
    · exact Or.inl h
    · right
      have hne : c0.cid ≠ cid := by
        intro he
        have h2 : c0 = c := List.inj_on_of_nodup_map hnc hc0 hcmem (by rw [he, hccid])
        rw [h2, hcp] at hc0p
        exact Option.noConfusion hc0p
      refine ⟨c0, ?_, hsc0, hc0p⟩
      have h3 := @updateCand_mem_of_mem _ cid f _ hc0
      rwa [if_neg hne] at h3
  · intro d2 hd2
    obtain ⟨d0, hd0, hd2eq⟩ := mem_of_mem_updateCand hd2
    by_cases hd : d0.cid = cid
    · rw [if_pos hd] at hd2eq
      subst hd2eq
      exact Or.inl (hfp d0)
    · rw [if_neg hd] at hd2eq
      subst hd2eq
      rcases hfwd d2 hd0 with h | ⟨s0, hs0, hp0, hsc0⟩
      · exact Or.inl h
      · exact Or.inr ⟨s0, hs0, hp0, hsc0⟩

theorem WF_clear {st : St} {cid sid : Nat} {c : CandidatRec}
    (hw : WF st) (hc : findCand st cid = some c) (hcp : c.place = some sid)
    (f : CandidatRec → CandidatRec) (hf : ∀ d, (f d).cid = d.cid)
    (hfp : ∀ d, (f d).place = none) (arch : List ArchiveEntry) :
    WF ⟨setSlotCandidat st.slots sid none, updateCand st.candidats cid f, arch⟩ := by
  obtain ⟨hns, hnc, hback, hfwd⟩ := hw
  obtain ⟨hcmem, hccid⟩ := findCand_mem hc
  rcases hfwd c hcmem with h | ⟨sb, hsb, hpb, hscb⟩
  · rw [hcp] at h; exact Option.noConfusion h
  have hsbsid : sb.sid = sid := by
    rw [hcp] at hpb
    exact (Option.some.inj hpb).symm
  refine ⟨?_, ?_, ?_, ?_⟩
  · rw [setSlotCandidat_map_sid]; exact hns
  · rw [updateCand_map_cid _ _ _ hf]; exact hnc
  · intro s2 hs2
    obtain ⟨s0, hs0, hs2eq⟩ := mem_of_mem_setSlotCandidat hs2
    by_cases h0 : s0.sid = sid
    · rw [if_pos h0] at hs2eq
      subst hs2eq
      exact Or.inl rfl
    · rw [if_neg h0] at hs2eq
      subst hs2eq
      rcases hback s2 hs0 with h | ⟨c0, hc0, hsc0, hc0p⟩
      · exact Or.inl h
      · right
        have hne : c0.cid ≠ cid := by
          intro he
          have h2 : c0 = c := List.inj_on_of_nodup_map hnc hc0 hcmem (by rw [he, hccid])
          rw [h2, hcp] at hc0p
          exact h0 (Option.some.inj hc0p).symm
        refine ⟨c0, ?_, hsc0, hc0p⟩
        have h3 := @updateCand_mem_of_mem _ cid f _ hc0
        rwa [if_neg hne] at h3
  · intro d2 hd2
    obtain ⟨d0, hd0, hd2eq⟩ := mem_of_mem_updateCand hd2
    by_cases hd : d0.cid = cid
    · rw [if_pos hd] at hd2eq
      subst hd2eq
      exact Or.inl (hfp d0)
    · rw [if_neg hd] at hd2eq
      subst hd2eq
      rcases hfwd d2 hd0 with h | ⟨s0, hs0, hp0, hsc0⟩
      · exact Or.inl h
      · right
        have hne : s0.sid ≠ sid := by
          intro he
          have h2 : s0 = sb := List.inj_on_of_nodup_map hns hs0 hsb (by rw [he, hsbsid])
          rw [h2, hscb, hccid] at hsc0
          exact hd (Option.some.inj hsc0).symm
        refine ⟨s0, ?_, hp0, hsc0⟩
        have h3 := @setSlotCandidat_mem_of_mem _ sid none _ hs0
        rwa [if_neg hne] at h3

theorem WF_book_noOld {st : St} {cid sid : Nat} {c : CandidatRec} {s : Slot}
    (hw : WF st) (hc : findCand st cid = some c) (hs : findSlot st sid = some s)
    (hsc : s.candidat = none) (hcp : c.place = none) :
    WF { st with
           slots := setSlotCandidat st.slots sid (some cid),
           candidats := updateCand st.candidats cid fun d => { d with place := some sid } } := by
  obtain ⟨hns, hnc, hback, hfwd⟩ := hw
  obtain ⟨hcmem, hccid⟩ := findCand_mem hc
  obtain ⟨hsmem, hssid⟩ := findSlot_mem hs
  refine ⟨?_, ?_, ?_, ?_⟩
  · rw [setSlotCandidat_map_sid]; exact hns
  · rw [updateCand_map_cid st.candidats cid (fun d => { d with place := some sid })
      (fun d => rfl)]
    exact hnc
  · intro s2 hs2
    obtain ⟨s0, hs0, hs2eq⟩ := mem_of_mem_setSlotCandidat hs2
    by_cases h0 : s0.sid = sid
    · rw [if_pos h0] at hs2eq
      subst hs2eq
      right
      refine ⟨{ c with place := some sid }, ?_, by simp [hccid], by simp [h0]⟩
      have h3 := @updateCand_mem_of_mem _ cid
        (fun d => { d with place := some sid }) _ hcmem
      rwa [if_pos hccid] at h3
    · rw [if_neg h0] at hs2eq
      subst hs2eq
      rcases hback s2 hs0 with h | ⟨c0, hc0, hsc0, hc0p⟩
      · exact Or.inl h
      · right
        have hne : c0.cid ≠ cid := by
          intro he
          have h2 : c0 = c := List.inj_on_of_nodup_map hnc hc0 hcmem (by rw [he, hccid])
          rw [h2, hcp] at hc0p
          exact Option.noConfusion hc0p
        refine ⟨c0, ?_, hsc0, hc0p⟩
        have h3 := @updateCand_mem_of_mem _ cid
          (fun d => { d with place := some sid }) _ hc0
        rwa [if_neg hne] at h3
  · intro d2 hd2
    obtain ⟨d0, hd0, hd2eq⟩ := mem_of_mem_updateCand hd2
    by_cases hd : d0.cid = cid
    · rw [if_pos hd] at hd2eq
      subst hd2eq
      right
      refine ⟨{ s with candidat := some cid }, ?_, by simp [hssid], by simp [hd]⟩
      have h3 := @setSlotCandidat_mem_of_mem _ sid (some cid) _ hsmem
      rwa [if_pos hssid] at h3
    · rw [if_neg hd] at hd2eq
      subst hd2eq
      rcases hfwd d2 hd0 with h | ⟨s0, hs0, hp0, hsc0⟩
      · exact Or.inl h
      · right
        have hne : s0.sid ≠ sid := by
          intro he
          have h2 : s0 = s := List.inj_on_of_nodup_map hns hs0 hsmem (by rw [he, hssid])
          rw [h2, hsc] at hsc0
          exact Option.noConfusion hsc0
        refine ⟨s0, ?_, hp0, hsc0⟩
        have h3 := @setSlotCandidat_mem_of_mem _ sid (some cid) _ hs0
        rwa [if_neg hne] at h3

theorem WF_book_withOld {st : St} {cid sid oldSid : Nat} {c : CandidatRec} {s os : Slot}
    (hw : WF st) (hc : findCand st cid = some c) (hs : findSlot st sid = some s)
    (hsc : s.candidat = none) (hcp : c.place = some oldSid)
    (hos : findSlot st oldSid = some os) (arch : List ArchiveEntry) :
    WF ⟨setSlotCandidat (setSlotCandidat st.slots sid (some cid)) oldSid none,
        updateCand st.candidats cid fun d => { d with place := some sid },
        arch⟩ := by
  obtain ⟨hns, hnc, hback, hfwd⟩ := hw
  obtain ⟨hcmem, hccid⟩ := findCand_mem hc
  obtain ⟨hsmem, hssid⟩ := findSlot_mem hs
  obtain ⟨osmem, ossid⟩ := findSlot_mem hos
  rcases hfwd c hcmem with h | ⟨sb, hsb, hpb, hscb⟩
  · rw [hcp] at h; exact Option.noConfusion h
  have hsbsid : sb.sid = oldSid := by
    rw [hcp] at hpb
    exact (Option.some.inj hpb).symm
  have hsb_os : sb = os := List.inj_on_of_nodup_map hns hsb osmem (by rw [hsbsid, ossid])
  have oscand : os.candidat = some cid := by rw [← hsb_os, hscb, hccid]
  have hnos : oldSid ≠ sid := by
    intro he
    have h2 : os = s := List.inj_on_of_nodup_map hns osmem hsmem (by rw [ossid, hssid, he])
    rw [h2, hsc] at oscand
    exact Option.noConfusion oscand
  refine ⟨?_, ?_, ?_, ?_⟩
  · rw [setSlotCandidat_map_sid, setSlotCandidat_map_sid]; exact hns
  · rw [updateCand_map_cid st.candidats cid (fun d => { d with place := some sid })
      (fun d => rfl)]
    exact hnc
  · intro s2 hs2
    obtain ⟨s1, hs1, hs2eq⟩ := mem_of_mem_setSlotCandidat hs2
    obtain ⟨s0, hs0, hs1eq⟩ := mem_of_mem_setSlotCandidat hs1
    by_cases h0 : s0.sid = sid
    · rw [if_pos h0] at hs1eq
      subst hs1eq
      rw [if_neg (show ¬ ({ s0 with candidat := some cid } : Slot).sid = oldSid by
        show ¬ s0.sid = oldSid
        rw [h0]
        exact fun h => hnos h.symm)] at hs2eq
      subst hs2eq
      right
      refine ⟨{ c with place := some sid }, ?_, by simp [hccid], by simp [h0]⟩
      have h3 := @updateCand_mem_of_mem _ cid
        (fun d => { d with place := some sid }) _ hcmem
      rwa [if_pos hccid] at h3
    · rw [if_neg h0] at hs1eq
      subst hs1eq
      by_cases h1 : s1.sid = oldSid
      · rw [if_pos h1] at hs2eq
        subst hs2eq
        exact Or.inl rfl
      · rw [if_neg h1] at hs2eq
        subst hs2eq
        rcases hback s2 hs0 with h | ⟨c0, hc0, hsc0, hc0p⟩
        · exact Or.inl h
        · right
          have hne : c0.cid ≠ cid := by
            intro he
            have h2 : c0 = c := List.inj_on_of_nodup_map hnc hc0 hcmem (by rw [he, hccid])
            rw [h2, hcp] at hc0p
            exact h1 (Option.some.inj hc0p).symm
          refine ⟨c0, ?_, hsc0, hc0p⟩
          have h3 := @updateCand_mem_of_mem _ cid
            (fun d => { d with place := some sid }) _ hc0
          rwa [if_neg hne] at h3
  · intro d2 hd2
    obtain ⟨d0, hd0, hd2eq⟩ := mem_of_mem_updateCand hd2
    by_cases hd : d0.cid = cid
    · rw [if_pos hd] at hd2eq
      subst hd2eq
      right
      refine ⟨{ s with candidat := some cid }, ?_, by simp [hssid], by simp [hd]⟩
      have h3 := @setSlotCandidat_mem_of_mem _ sid (some cid) _ hsmem
      rw [if_pos hssid] at h3
      have h4 := @setSlotCandidat_mem_of_mem _ oldSid none _ h3
      rwa [if_neg (show ¬ ({ s with candidat := some cid } : Slot).sid = oldSid by
        show ¬ s.sid = oldSid
        rw [hssid]
        exact fun h => hnos h.symm)] at h4
    · rw [if_neg hd] at hd2eq
      subst hd2eq
      rcases hfwd d2 hd0 with h | ⟨s0, hs0, hp0, hsc0⟩
      · exact Or.inl h
      · right
        have hne1 : s0.sid ≠ sid := by
          intro he
          have h2 : s0 = s := List.inj_on_of_nodup_map hns hs0 hsmem (by rw [he, hssid])
          rw [h2, hsc] at hsc0
          exact Option.noConfusion hsc0
        have hne2 : s0.sid ≠ oldSid := by
          intro he
          have h2 : s0 = os := List.inj_on_of_nodup_map hns hs0 osmem (by rw [he, ossid])
          rw [h2, oscand] at hsc0
          exact hd (Option.some.inj hsc0).symm
        refine ⟨s0, ?_, hp0, hsc0⟩
        have h3 := @setSlotCandidat_mem_of_mem _ sid (some cid) _ hs0
        rw [if_neg hne1] at h3
        have h4 := @setSlotCandidat_mem_of_mem _ oldSid none _ h3
        rwa [if_neg hne2] at h4

theorem WF_bookSlotAux (st : St) (cid sid : Nat) (r : ArchiveReason) (u : Nat)
    (now : CalDate) (hw : WF st) : WF (bookSlotAux st cid sid r u now).1 := by
  unfold bookSlotAux
  rcases hc : findCand st cid with _ | c
  · simp only [hc]; exact hw
  simp only [hc]
  rcases he : getEligibility c now with _ | dr
  swap
  · simp only [he]; exact hw
  simp only [he]
  rcases hs : findSlot st sid with _ | s
  · simp only [hs]; exact hw
  simp only [hs]
  rcases hsc : s.candidat with _ | x
  swap
  · simp only [hsc]; exact hw
  simp only [hsc]
  rcases hcp : c.place with _ | oldSid
  · simp only [hcp]
    exact WF_book_noOld hw hc hs hsc hcp
  simp only [hcp]
  rcases hos : findSlot st oldSid with _ | os
  · simp only [hos]
    obtain ⟨hcmem, hccid⟩ := findCand_mem hc
    rcases hw.2.2.2 c hcmem with h | ⟨sb, hsb, hpb, hscb⟩
    · rw [hcp] at h
      exact Option.noConfusion h
    · rw [hcp] at hpb
      exact absurd (Option.some.inj hpb).symm (findSlot_none hos sb hsb)
  · simp only [hos]
    exact WF_book_withOld hw hc hs hsc hcp hos _

theorem WF_cancelBooking (st : St) (cid : Nat) (r : ArchiveReason) (u : Nat)
    (now : CalDate) (hw : WF st) : WF (cancelBooking st cid r u now).1 := by
  unfold cancelBooking
  rcases hc : findCand st cid with _ | c
  · simp only [hc]; exact hw
  simp only [hc]
  rcases hcp : c.place with _ | sid
  · simp only [hcp]; exact hw
  simp only [hcp]
  rcases hs : findSlot st sid with _ | s
  · simp only [hs]
    obtain ⟨hcmem, hccid⟩ := findCand_mem hc
    rcases hw.2.2.2 c hcmem with h | ⟨sb, hsb, hpb, hscb⟩
    · rw [hcp] at h
      exact Option.noConfusion h
    · rw [hcp] at hpb
      exact absurd (Option.some.inj hpb).symm (findSlot_none hs sb hsb)
  · simp only [hs]
    exact WF_clear hw hc hcp (fun d => { d with place := none }) (fun d => rfl)
      (fun d => rfl) _

theorem WF_recordOutcome (st : St) (cid : Nat) (o : Outcome) (day u : Nat)
    (now : CalDate) (hw : WF st) : WF (recordOutcome st cid o day u now) := by
  have hfcid : ∀ d : CandidatRec, (applyOutcomeToCandidat d o day).cid = d.cid := by
    intro d; cases o <;> rfl
  have hfpl : ∀ d : CandidatRec, (applyOutcomeToCandidat d o day).place = none := by
    intro d; cases o <;> rfl
  unfold recordOutcome
  rcases hc : findCand st cid with _ | c
  · simp only [hc]; exact hw
  simp only [hc]
  rcases hcp : c.place with _ | sid
  · simp only [hcp]
    exact WF_touch_unbooked hw hc hcp _ hfcid hfpl
  simp only [hcp]
  rcases hs : findSlot st sid with _ | s
  · simp only [hs]
    obtain ⟨hcmem, hccid⟩ := findCand_mem hc
    rcases hw.2.2.2 c hcmem with h | ⟨sb, hsb, hpb, hscb⟩
    · rw [hcp] at h
      exact Option.noConfusion h
    · rw [hcp] at hpb
      exact absurd (Option.some.inj hpb).symm (findSlot_none hs sb hsb)
  · simp only [hs]
    exact WF_clear hw hc hcp _ hfcid hfpl _

theorem WF_applyOp (st : St) (op : Op) (hw : WF st) : WF (applyOp st op) := by
  cases op with
  | book cid sid now => exact WF_bookSlotAux st cid sid _ _ now hw
  | move cid sid u now => exact WF_bookSlotAux st cid sid _ _ now hw
  | cancel cid r u now => exact WF_cancelBooking st cid r u now hw
  | outcome cid o day u now => exact WF_recordOutcome st cid o day u now hw

theorem WF_applyOps (ops : List Op) (st : St) (hw : WF st) : WF (applyOps st ops) := by
  induction ops generalizing st with
  | nil => exact hw
  | cons op ops ih => exact ih (applyOp st op) (WF_applyOp st op hw)

/-- C2: for every candidate and after any sequence of booking operations
(bookings — including failed attempts, which leave the state untouched —
administrative moves, cancellations and recorded outcomes) applied to a
well-formed state, the candidate has at most one active (non-archived)
booking reference at any observable time: at most one slot of the
repository carries the candidate's reference between any two operations. -/
theorem candilib_C2_at_most_one_active_booking (st : St) (ops : List Op) (cid : Nat)
    (hw : WF st) : activeBookingCount (applyOps st ops) cid ≤ 1 :=
  activeCount_le_one_of_WF (WF_applyOps ops st hw) cid

/-- Witness for C2: a concrete well-formed state (slot 1 free, slot 2 booked
by candidate 5) run through a successful booking by candidate 6, a failed
booking attempt by candidate 5 on the now-taken slot, a recorded failure
and a cancellation; both candidates end with at most one active booking. -/
theorem candilib_C2_at_most_one_active_booking_witness :
    activeBookingCount
      (applyOps
        ⟨[⟨1, 9, 4, 200000, 0, none⟩, ⟨2, 9, 4, 201000, 0, some 5⟩],
         [⟨5, true, some ⟨2020, 1, 1⟩, none, 0, [], false, some 2⟩,
          ⟨6, true, some ⟨2020, 1, 1⟩, none, 0, [], false, none⟩], []⟩
        [Op.book 6 1 ⟨2022, 1, 10⟩, Op.book 5 1 ⟨2022, 1, 10⟩,
         Op.outcome 5 Outcome.echec 100 0 ⟨2022, 1, 10⟩,
         Op.cancel 6 ArchiveReason.candidateCancel 6 ⟨2022, 1, 10⟩]) 5 ≤ 1 :=
  candilib_C2_at_most_one_active_booking
    ⟨[⟨1, 9, 4, 200000, 0, none⟩, ⟨2, 9, 4, 201000, 0, some 5⟩],
     [⟨5, true, some ⟨2020, 1, 1⟩, none, 0, [], false, some 2⟩,
      ⟨6, true, some ⟨2020, 1, 1⟩, none, 0, [], false, none⟩], []⟩
    [Op.book 6 1 ⟨2022, 1, 10⟩, Op.book 5 1 ⟨2022, 1, 10⟩,
     Op.outcome 5 Outcome.echec 100 0 ⟨2022, 1, 10⟩,
     Op.cancel 6 ArchiveReason.candidateCancel 6 ⟨2022, 1, 10⟩] 5
    (by unfold WF; decide)

/-! ## Archive ledger lemmas -/

theorem archive_bookSlotAux (st : St) (cid sid : Nat) (r : ArchiveReason) (u : Nat)
    (now : CalDate) :
    ∃ t, (bookSlotAux st cid sid r u now).1.archive = st.archive ++ t := by
  unfold bookSlotAux
  rcases hc : findCand st cid with _ | c
  · exact ⟨[], by simp⟩
  simp only [hc]
  rcases he : getEligibility c now with _ | dr
  swap
  · exact ⟨[], by simp⟩
  simp only [he]
  rcases hs : findSlot st sid with _ | s
  · exact ⟨[], by simp⟩
  simp only [hs]
  rcases hsc : s.candidat with _ | x
  swap
  · exact ⟨[], by simp⟩
  simp only [hsc]
  rcases hcp : c.place with _ | oldSid
  · exact ⟨[], by simp [hcp]⟩
  simp only [hcp]
  rcases hos : findSlot st oldSid with _ | os
  · exact ⟨[], by simp⟩
  · exact ⟨[mkArchiveEntry os r (toDayNumber now) u cid], rfl⟩

theorem archive_cancelBooking (st : St) (cid : Nat) (r : ArchiveReason) (u : Nat)
    (now : CalDate) :
    ∃ t, (cancelBooking st cid r u now).1.archive = st.archive ++ t := by
  unfold cancelBooking
  rcases hc : findCand st cid with _ | c
  · exact ⟨[], by simp⟩
  simp only [hc]
  rcases hcp : c.place with _ | sid
  · exact ⟨[], by simp⟩
  simp only [hcp]
  rcases hs : findSlot st sid with _ | s
  · exact ⟨[], by simp⟩
  · exact ⟨[mkArchiveEntry s r (toDayNumber now) u cid], rfl⟩

theorem archive_recordOutcome (st : St) (cid : Nat) (o : Outcome) (day u : Nat)
    (now : CalDate) :
    ∃ t, (recordOutcome st cid o day u now).archive = st.archive ++ t := by
  unfold recordOutcome
  rcases hc : findCand st cid with _ | c
  · exact ⟨[], by simp⟩
  simp only [hc]
  rcases hcp : c.place with _ | sid
  · exact ⟨[], by simp⟩
  simp only [hcp]
  rcases hs : findSlot st sid with _ | s
  · exact ⟨[], by simp⟩
  · exact ⟨[mkArchiveEntry s (outcomeArchiveReason o) (toDayNumber now) u cid], rfl⟩

theorem archive_applyOp (st : St) (op : Op) :
    ∃ t, (applyOp st op).archive = st.archive ++ t := by
  cases op with
  | book cid sid now => exact archive_bookSlotAux st cid sid _ _ now
  | move cid sid u now => exact archive_bookSlotAux st cid sid _ u now
  | cancel cid r u now => exact archive_cancelBooking st cid r u now
  | outcome cid o day u now => exact archive_recordOutcome st cid o day u now

theorem archive_applyOps (ops : List Op) (st : St) :
    ∃ t, (applyOps st ops).archive = st.archive ++ t := by
  induction ops generalizing st with
  | nil => exact ⟨[], by simp [applyOps]⟩
  | cons op ops ih =>
    obtain ⟨t1, h1⟩ := archive_applyOp st op
    obtain ⟨t2, h2⟩ := ih (applyOp st op)
    exact ⟨t1 ++ t2, by
      show (applyOps (applyOp st op) ops).archive = _
      rw [h2, h1, List.append_assoc]⟩

/-- C8: every booking termination — cancellation, recorded failure, absence
or pass, admin removal (a cancellation with the admin reason), and
displacement by a new booking or an admin move — appends exactly one entry
to the archive ledger, built by mkArchiveEntry from the released slot's
attributes, the reason code, the archive timestamp and the acting user;
and no operation ever updates or deletes an existing entry: after any
single operation, and after any sequence of operations, the previous
ledger is a prefix of the new one. -/
theorem candilib_C8_append_only_ledger :
    (∀ st op, ∃ t, (applyOp st op).archive = st.archive ++ t) ∧
    (∀ st ops, ∃ t, (applyOps st ops).archive = st.archive ++ t) ∧
    (∀ st cid r u (now : CalDate) c sid s,
      findCand st cid = some c → c.place = some sid → findSlot st sid = some s →
      (cancelBooking st cid r u now).1.archive =
        st.archive ++ [mkArchiveEntry s r (toDayNumber now) u cid]) ∧
    (∀ st cid o day u (now : CalDate) c sid s,
      findCand st cid = some c → c.place = some sid → findSlot st sid = some s →
      (recordOutcome st cid o day u now).archive =
        st.archive ++ [mkArchiveEntry s (outcomeArchiveReason o) (toDayNumber now) u cid]) ∧
    (∀ st cid sid r u (now : CalDate) c s oldSid os,
      findCand st cid = some c → getEligibility c now = none →
      findSlot st sid = some s → s.candidat = none →
      c.place = some oldSid → findSlot st oldSid = some os →
      (bookSlotAux st cid sid r u now).1.archive =
        st.archive ++ [mkArchiveEntry os r (toDayNumber now) u cid]) := by
  refine ⟨archive_applyOp, fun st ops => archive_applyOps ops st, ?_, ?_, ?_⟩
  · intro st cid r u now c sid s hc hcp hs
    unfold cancelBooking
    simp only [hc, hcp, hs]
  · intro st cid o day u now c sid s hc hcp hs
    unfold recordOutcome
    simp only [hc, hcp, hs]
  · intro st cid sid r u now c s oldSid os hc he hs hsc hcp hos
    unfold bookSlotAux
    simp only [hc, he, hs, hsc, hcp, hos]

/-- Witness for C8: cancelling candidate 5's booking of slot 2 in a concrete
state appends exactly the matching archive entry. -/
theorem candilib_C8_append_only_ledger_witness :
    (cancelBooking
      ⟨[⟨2, 9, 4, 201000, 0, some 5⟩],
       [⟨5, true, some ⟨2020, 1, 1⟩, none, 0, [], false, some 2⟩], []⟩
      5 ArchiveReason.adminRemoved 77 ⟨2022, 1, 10⟩).1.archive =
      [mkArchiveEntry ⟨2, 9, 4, 201000, 0, some 5⟩ ArchiveReason.adminRemoved
        (toDayNumber ⟨2022, 1, 10⟩) 77 5] := by
  have h := candilib_C8_append_only_ledger.2.2.1
    ⟨[⟨2, 9, 4, 201000, 0, some 5⟩],
     [⟨5, true, some ⟨2020, 1, 1⟩, none, 0, [], false, some 2⟩], []⟩
    5 ArchiveReason.adminRemoved 77 ⟨2022, 1, 10⟩
    ⟨5, true, some ⟨2020, 1, 1⟩, none, 0, [], false, some 2⟩ 2 ⟨2, 9, 4, 201000, 0, some 5⟩
    (by decide) rfl (by decide)
  simpa using h
